import Mathlib

/-
  Verification of the camera-orbit controller and geodesic-integrator contract
  of the BlackHole visualization (src/src/main.cpp).

  Floats in the C++ source are modelled as real numbers; glm functions
  (clamp, pi, half_pi, two_pi, vec3) are modelled by their mathematical
  definitions.
-/

namespace BlackHole

noncomputable section

/-- A 3-component vector of reals, modelling glm::vec3. -/
structure Vec3 where
  x : ℝ
  y : ℝ
  z : ℝ

/-- Camera state, modelling struct Camera in src/src/main.cpp (lines 37-80). -/
structure Camera where
  radius : ℝ
  theta : ℝ
  phi : ℝ
  fov : ℝ
  minRadius : ℝ
  maxRadius : ℝ
  minTheta : ℝ
  maxTheta : ℝ
  isDragging : Bool
  lastMouseX : ℝ
  lastMouseY : ℝ
  sensitivity : ℝ

/-- The member initializers of struct Camera: the startup state of the global
camera instance (main.cpp lines 38-53). -/
def initCamera : Camera where
  radius := 50
  theta := Real.pi / 2 * 0.8
  phi := 0.3
  fov := 60
  minRadius := 10
  maxRadius := 800
  minTheta := 0.1
  maxTheta := Real.pi - 0.1
  isDragging := false
  lastMouseX := 0
  lastMouseY := 0
  sensitivity := 0.005

/-- glm::clamp(x, lo, hi) = min(max(x, lo), hi). -/
def clamp (x lo hi : ℝ) : ℝ := min (max x lo) hi

/-- Camera::getPosition (main.cpp lines 62-68): spherical-to-Cartesian. -/
def Camera.getPosition (c : Camera) : Vec3 where
  x := c.radius * Real.sin c.theta * Real.cos c.phi
  y := c.radius * Real.cos c.theta
  z := c.radius * Real.sin c.theta * Real.sin c.phi

/-- Camera::getTarget (main.cpp lines 71-73): always the origin. -/
def Camera.getTarget (_ : Camera) : Vec3 := ⟨0, 0, 0⟩

/-- Camera::reset (main.cpp lines 75-79). -/
def Camera.reset (c : Camera) : Camera :=
  { c with radius := 25, theta := Real.pi / 2, phi := 0 }

/-- mouse_button_callback on GLFW_PRESS of the left button (main.cpp lines
105-107): start dragging and record the cursor position. -/
def mouse_button_press (c : Camera) (x y : ℝ) : Camera :=
  { c with isDragging := true, lastMouseX := x, lastMouseY := y }

/-- mouse_button_callback on GLFW_RELEASE of the left button (main.cpp lines
108-110). -/
def mouse_button_release (c : Camera) : Camera :=
  { c with isDragging := false }

/-- The phi wrap of cursor_position_callback (main.cpp lines 136-137): two
successive conditional shifts by two_pi. -/
def wrapPhi (x : ℝ) : ℝ :=
  let y := if x > Real.pi then x - 2 * Real.pi else x
  if y < -Real.pi then y + 2 * Real.pi else y

/-- cursor_position_callback (main.cpp lines 121-142): while dragging, update
phi and theta from the cursor deltas, clamp theta, wrap phi, and record the
cursor position. -/
def cursor_position_callback (c : Camera) (xpos ypos : ℝ) : Camera :=
  if c.isDragging then
    let dx := xpos - c.lastMouseX
    let dy := ypos - c.lastMouseY
    { c with
      phi := wrapPhi (c.phi - dx * c.sensitivity)
      theta := clamp (c.theta + dy * c.sensitivity) c.minTheta c.maxTheta
      lastMouseX := xpos
      lastMouseY := ypos }
  else c

/-- scroll_callback (main.cpp lines 151-159): scale radius by the zoom factor
and clamp. -/
def scroll_callback (c : Camera) (xoffset yoffset : ℝ) : Camera :=
  let zoomFactor := 1 - yoffset * 0.1
  { c with radius := clamp (c.radius * zoomFactor) c.minRadius c.maxRadius }

/-- A drag by pixel deltas, realized through cursor_position_callback at the
cursor position displaced by (dx, dy) from the recorded one. -/
def Camera.drag (c : Camera) (dx dy : ℝ) : Camera :=
  cursor_position_callback c (c.lastMouseX + dx) (c.lastMouseY + dy)

/-- C4: zoom multiplies radius by (1 - scrollDelta * 0.1) and clamps into
[minRadius, maxRadius]; with scrollDelta = 5 the factor is 0.5, so radius is
halved and then clamped. -/
theorem zoom_scales_and_clamps (c : Camera) (xoff d : ℝ) :
    (scroll_callback c xoff d).radius
      = clamp (c.radius * (1 - d * 0.1)) c.minRadius c.maxRadius ∧
    (scroll_callback c xoff 5).radius
      = clamp (c.radius * 0.5) c.minRadius c.maxRadius := by
  refine ⟨rfl, ?_⟩
  show clamp (c.radius * (1 - 5 * 0.1)) c.minRadius c.maxRadius = _
  norm_num

/-- C5: getPosition is the spherical-to-Cartesian conversion and getTarget is
the origin; at radius 300, theta 1.3, phi 0 the position is
(300 sin 1.3, 300 cos 1.3, 0). -/
theorem position_target_formulas (c : Camera) :
    c.getPosition = ⟨c.radius * Real.sin c.theta * Real.cos c.phi,
                     c.radius * Real.cos c.theta,
                     c.radius * Real.sin c.theta * Real.sin c.phi⟩ ∧
    c.getTarget = ⟨0, 0, 0⟩ ∧
    ({ c with radius := 300, theta := 1.3, phi := 0 } : Camera).getPosition
      = ⟨300 * Real.sin 1.3, 300 * Real.cos 1.3, 0⟩ := by
  refine ⟨rfl, rfl, ?_⟩
  simp [Camera.getPosition]

/-- The squared Euclidean norm of a Vec3, and its square root: the length of a
glm::vec3. -/
def norm3 (v : Vec3) : ℝ := Real.sqrt (v.x ^ 2 + v.y ^ 2 + v.z ^ 2)

/-- C6: for nonnegative radius, the Euclidean norm of getPosition equals
radius exactly, over the reals. -/
theorem norm_position_eq_radius (c : Camera) (h : 0 ≤ c.radius) :
    norm3 c.getPosition = c.radius := by
  have h1 := Real.sin_sq_add_cos_sq c.phi
  have h2 := Real.sin_sq_add_cos_sq c.theta
  have key : (c.radius * Real.sin c.theta * Real.cos c.phi) ^ 2
      + (c.radius * Real.cos c.theta) ^ 2
      + (c.radius * Real.sin c.theta * Real.sin c.phi) ^ 2 = c.radius ^ 2 := by
    linear_combination (c.radius ^ 2 * Real.sin c.theta ^ 2) * h1
      + c.radius ^ 2 * h2
  unfold norm3 Camera.getPosition
  rw [key, Real.sqrt_sq h]

/-- C6 witness: the startup camera has nonnegative radius and its position has
norm equal to that radius. -/
theorem norm_position_eq_radius_witness :
    norm3 initCamera.getPosition = initCamera.radius :=
  norm_position_eq_radius initCamera (by norm_num [initCamera])

/-- C7: reset restores radius = 25, theta = pi/2, phi = 0, leaves fov
unchanged, and immediately afterwards getPosition is (25, 0, 0) and getTarget
the origin. -/
theorem reset_restores_canonical_defaults (c : Camera) :
    c.reset.radius = 25 ∧ c.reset.theta = Real.pi / 2 ∧ c.reset.phi = 0 ∧
    c.reset.fov = c.fov ∧
    c.reset.getPosition = ⟨25, 0, 0⟩ ∧ c.reset.getTarget = ⟨0, 0, 0⟩ := by
  refine ⟨rfl, rfl, rfl, rfl, ?_, rfl⟩
  simp [Camera.reset, Camera.getPosition]

/-- C10: the canonical defaults restored by reset (25, pi/2, 0) differ in
every coordinate from the startup construction defaults (50, 0.8 * pi/2, 0.3),
so reset on the freshly constructed camera changes the state. -/
theorem reset_defaults_differ_from_startup :
    initCamera.reset.radius = 25 ∧ initCamera.radius = 50 ∧
    initCamera.reset.theta = Real.pi / 2 ∧
    initCamera.theta = Real.pi / 2 * 0.8 ∧
    initCamera.reset.phi = 0 ∧ initCamera.phi = 0.3 ∧
    initCamera.reset.radius ≠ initCamera.radius ∧
    initCamera.reset.theta ≠ initCamera.theta ∧
    initCamera.reset.phi ≠ initCamera.phi ∧
    initCamera.reset ≠ initCamera := by
  have hpi := Real.pi_pos
  refine ⟨rfl, rfl, rfl, rfl, rfl, rfl, ?_, ?_, ?_, ?_⟩
  · show (25 : ℝ) ≠ 50
    norm_num
  · show Real.pi / 2 ≠ Real.pi / 2 * 0.8
    intro h
    nlinarith
  · show (0 : ℝ) ≠ 0.3
    norm_num
  · intro h
    have hr := congrArg Camera.radius h
    have : (25 : ℝ) = 50 := hr
    norm_num at this

/-- C3: while dragging, a drag by (dx, dy) sets phi to the wrap of
phi - dx * sensitivity and theta to the clamp of theta + dy * sensitivity;
with sensitivity 0.005, drag(100, 0) moves phi down by 0.5 radians before the
wrap. -/
theorem drag_updates_angles (c : Camera) (dx dy : ℝ) (h : c.isDragging = true) :
    (c.drag dx dy).phi = wrapPhi (c.phi - dx * c.sensitivity) ∧
    (c.drag dx dy).theta
      = clamp (c.theta + dy * c.sensitivity) c.minTheta c.maxTheta ∧
    (c.sensitivity = 0.005 → (c.drag 100 0).phi = wrapPhi (c.phi - 0.5)) := by
  refine ⟨?_, ?_, ?_⟩
  · simp [Camera.drag, cursor_position_callback, h]
  · simp [Camera.drag, cursor_position_callback, h]
  · intro hs
    simp [Camera.drag, cursor_position_callback, h, hs]
    norm_num

/-- C3 witness: drag at a concrete dragging camera. -/
theorem drag_updates_angles_witness :
    (Camera.drag (mouse_button_press initCamera 0 0) 100 0).phi
      = wrapPhi ((mouse_button_press initCamera 0 0).phi - 0.5) :=
  (drag_updates_angles (mouse_button_press initCamera 0 0) 100 0 rfl).2.2 rfl

/-- One input event consumed by the camera controller, as dispatched by the
GLFW callbacks and the R-key handler. -/
inductive CamOp where
  | press (x y : ℝ)
  | release
  | move (x y : ℝ)
  | scroll (d : ℝ)
  | resetKey

/-- Apply one input event to the camera, exactly as the callbacks in
main.cpp do. -/
def applyOp (c : Camera) : CamOp → Camera
  | .press x y => mouse_button_press c x y
  | .release => mouse_button_release c
  | .move x y => cursor_position_callback c x y
  | .scroll d => scroll_callback c 0 d
  | .resetKey => c.reset

/-- Apply a sequence of input events in order. -/
def applyOps (c : Camera) (ops : List CamOp) : Camera := ops.foldl applyOp c

/-- The configured bounds are ordered (true of the source constants). -/
def BoundsOrdered (c : Camera) : Prop :=
  c.minRadius ≤ c.maxRadius ∧ c.minTheta ≤ c.maxTheta

/-- The clamp invariant maintained by the controller: radius and theta within
their closed bounds, and phi in the closed interval [-pi, pi]. -/
def InRange (c : Camera) : Prop :=
  c.minRadius ≤ c.radius ∧ c.radius ≤ c.maxRadius ∧
  c.minTheta ≤ c.theta ∧ c.theta ≤ c.maxTheta ∧
  -Real.pi ≤ c.phi ∧ c.phi ≤ Real.pi

/-- An event is small for camera c when, if it is a cursor move, the induced
change of phi is at most two_pi in magnitude (so the single conditional wrap
of the source suffices). -/
def SmallStep (c : Camera) : CamOp → Prop
  | .move x _ => |(x - c.lastMouseX) * c.sensitivity| ≤ 2 * Real.pi
  | _ => True

/-- Every event of the sequence is small for the state it is applied to. -/
def SmallOps : Camera → List CamOp → Prop
  | _, [] => True
  | c, op :: ops => SmallStep c op ∧ SmallOps (applyOp c op) ops

/-- Whether an event is the reset command. -/
def isReset : CamOp → Bool
  | .resetKey => true
  | _ => false

/-- The sequence contains no reset command: only drags and zooms. -/
def NoReset (ops : List CamOp) : Prop := ∀ op ∈ ops, isReset op = false

/-- The bound fields hold the source constants of struct Camera. -/
def DefaultBounds (c : Camera) : Prop :=
  c.minRadius = 10 ∧ c.maxRadius = 800 ∧
  c.minTheta = 0.1 ∧ c.maxTheta = Real.pi - 0.1

lemma clamp_mem (x lo hi : ℝ) (h : lo ≤ hi) :
    lo ≤ clamp x lo hi ∧ clamp x lo hi ≤ hi :=
  ⟨le_min (le_max_right x lo) h, min_le_right _ _⟩

lemma wrapPhi_mem (x : ℝ) (h1 : -(3 * Real.pi) ≤ x) (h2 : x ≤ 3 * Real.pi) :
    -Real.pi ≤ wrapPhi x ∧ wrapPhi x ≤ Real.pi := by
  have hpi := Real.pi_pos
  unfold wrapPhi
  by_cases hx : x > Real.pi
  · rw [if_pos hx, if_neg (by linarith)]
    constructor <;> linarith
  · rw [if_neg hx]
    push_neg at hx
    by_cases hy : x < -Real.pi
    · rw [if_pos hy]
      constructor <;> linarith
    · rw [if_neg hy]
      push_neg at hy
      exact ⟨hy, hx⟩

/-- No event changes the bound fields or the sensitivity. -/
lemma applyOp_config (c : Camera) (op : CamOp) :
    (applyOp c op).minRadius = c.minRadius ∧
    (applyOp c op).maxRadius = c.maxRadius ∧
    (applyOp c op).minTheta = c.minTheta ∧
    (applyOp c op).maxTheta = c.maxTheta ∧
    (applyOp c op).sensitivity = c.sensitivity := by
  cases op with
  | press x y => exact ⟨rfl, rfl, rfl, rfl, rfl⟩
  | release => exact ⟨rfl, rfl, rfl, rfl, rfl⟩
  | move x y =>
    unfold applyOp cursor_position_callback
    by_cases h : c.isDragging <;> simp [h]
  | scroll d => exact ⟨rfl, rfl, rfl, rfl, rfl⟩
  | resetKey => exact ⟨rfl, rfl, rfl, rfl, rfl⟩

/-- A single non-reset event preserves the clamp invariant. -/
lemma applyOp_inRange (c : Camera) (op : CamOp) (hb : BoundsOrdered c)
    (hr : InRange c) (hs : SmallStep c op) (hnr : isReset op = false) :
    InRange (applyOp c op) := by
  obtain ⟨hb1, hb2⟩ := hb
  obtain ⟨r1, r2, t1, t2, p1, p2⟩ := hr
  cases op with
  | press x y => exact ⟨r1, r2, t1, t2, p1, p2⟩
  | release => exact ⟨r1, r2, t1, t2, p1, p2⟩
  | move x y =>
    show InRange (cursor_position_callback c x y)
    unfold cursor_position_callback
    by_cases h : c.isDragging
    · simp only [h, if_true]
      have hth := clamp_mem (c.theta + (y - c.lastMouseY) * c.sensitivity)
        c.minTheta c.maxTheta hb2
      have habs : |(x - c.lastMouseX) * c.sensitivity| ≤ 2 * Real.pi := hs
      rw [abs_le] at habs
      have hph := wrapPhi_mem (c.phi - (x - c.lastMouseX) * c.sensitivity)
        (by linarith [habs.1, habs.2]) (by linarith [habs.1, habs.2])
      exact ⟨r1, r2, hth.1, hth.2, hph.1, hph.2⟩
    · simp only [h, if_false]
      exact ⟨r1, r2, t1, t2, p1, p2⟩
  | scroll d =>
    show InRange (scroll_callback c 0 d)
    have hcl := clamp_mem (c.radius * (1 - d * 0.1)) c.minRadius c.maxRadius hb1
    exact ⟨hcl.1, hcl.2, t1, t2, p1, p2⟩
  | resetKey => simp [isReset] at hnr

/-- The reset command preserves the clamp invariant when the bound fields hold
the source constants. -/
lemma reset_inRange (c : Camera) (hd : DefaultBounds c) : InRange c.reset := by
  obtain ⟨h1, h2, h3, h4⟩ := hd
  have hpi := Real.pi_gt_three
  refine ⟨?_, ?_, ?_, ?_, ?_, ?_⟩
  · show c.minRadius ≤ 25
    rw [h1]; norm_num
  · show (25 : ℝ) ≤ c.maxRadius
    rw [h2]; norm_num
  · show c.minTheta ≤ Real.pi / 2
    rw [h3]; linarith
  · show Real.pi / 2 ≤ c.maxTheta
    rw [h4]; linarith
  · show -Real.pi ≤ (0 : ℝ)
    linarith
  · show (0 : ℝ) ≤ Real.pi
    linarith

/-- Any sequence of non-reset events preserves the clamp invariant, when each
drag changes phi by at most two_pi. -/
lemma applyOps_inRange_noReset (ops : List CamOp) : ∀ c : Camera,
    BoundsOrdered c → InRange c → SmallOps c ops → NoReset ops →
    InRange (applyOps c ops) := by
  induction ops with
  | nil => intro c _ hr _ _; exact hr
  | cons op ops ih =>
    intro c hb hr hs hnr
    obtain ⟨hs1, hs2⟩ := hs
    have hnr1 : isReset op = false := hnr op (List.mem_cons_self op ops)
    have hnr2 : NoReset ops := fun o ho => hnr o (List.mem_cons_of_mem op ho)
    have hcfg := applyOp_config c op
    have hb2 : BoundsOrdered (applyOp c op) := by
      constructor
      · rw [hcfg.1, hcfg.2.1]; exact hb.1
      · rw [hcfg.2.2.1, hcfg.2.2.2.1]; exact hb.2
    exact ih (applyOp c op) hb2 (applyOp_inRange c op hb hr hs1 hnr1) hs2 hnr2

/-- Every event preserves the source-constant bound fields. -/
lemma applyOp_defaultBounds (c : Camera) (op : CamOp) (hd : DefaultBounds c) :
    DefaultBounds (applyOp c op) := by
  have hcfg := applyOp_config c op
  refine ⟨?_, ?_, ?_, ?_⟩
  · rw [hcfg.1]; exact hd.1
  · rw [hcfg.2.1]; exact hd.2.1
  · rw [hcfg.2.2.1]; exact hd.2.2.1
  · rw [hcfg.2.2.2.1]; exact hd.2.2.2

lemma defaultBounds_ordered (c : Camera) (hd : DefaultBounds c) :
    BoundsOrdered c := by
  obtain ⟨h1, h2, h3, h4⟩ := hd
  constructor
  · rw [h1, h2]; norm_num
  · rw [h3, h4]; linarith [Real.pi_gt_three]

/-- A single event of any kind, the reset command included, preserves the
clamp invariant when the bound fields hold the source constants. -/
lemma applyOp_inRange_default (c : Camera) (op : CamOp) (hd : DefaultBounds c)
    (hr : InRange c) (hs : SmallStep c op) : InRange (applyOp c op) := by
  have hb := defaultBounds_ordered c hd
  cases op with
  | resetKey => exact reset_inRange c hd
  | press x y => exact applyOp_inRange c (.press x y) hb hr hs rfl
  | release => exact applyOp_inRange c .release hb hr hs rfl
  | move x y => exact applyOp_inRange c (.move x y) hb hr hs rfl
  | scroll d => exact applyOp_inRange c (.scroll d) hb hr hs rfl

/-- Any sequence of controller events preserves the clamp invariant, when
each drag changes phi by at most two_pi. -/
lemma applyOps_inRange_default (ops : List CamOp) : ∀ c : Camera,
    DefaultBounds c → InRange c → SmallOps c ops →
    InRange (applyOps c ops) := by
  induction ops with
  | nil => intro c _ hr _; exact hr
  | cons op ops ih =>
    intro c hd hr hs
    obtain ⟨hs1, hs2⟩ := hs
    exact ih (applyOp c op) (applyOp_defaultBounds c op hd)
      (applyOp_inRange_default c op hd hr hs1) hs2

lemma initCamera_defaultBounds : DefaultBounds initCamera := ⟨rfl, rfl, rfl, rfl⟩

lemma initCamera_boundsOrdered : BoundsOrdered initCamera :=
  defaultBounds_ordered initCamera initCamera_defaultBounds

lemma initCamera_inRange : InRange initCamera := by
  have h3 := Real.pi_gt_three
  refine ⟨?_, ?_, ?_, ?_, ?_, ?_⟩
  · show (10 : ℝ) ≤ 50
    norm_num
  · show (50 : ℝ) ≤ 800
    norm_num
  · show (0.1 : ℝ) ≤ Real.pi / 2 * 0.8
    linarith
  · show Real.pi / 2 * 0.8 ≤ Real.pi - 0.1
    linarith
  · show -Real.pi ≤ (0.3 : ℝ)
    linarith
  · show (0.3 : ℝ) ≤ Real.pi
    linarith

/-- C1 (amended): after any sequence of drag and zoom events from a valid
initial CameraState, radius stays in [minRadius, maxRadius] and theta in
[minTheta, maxTheta]; phi stays in the closed interval [-pi, pi], provided
each drag changes phi by at most two_pi. -/
theorem drag_zoom_sequence_invariants (c : Camera) (ops : List CamOp)
    (hb : BoundsOrdered c) (hr : InRange c) (hs : SmallOps c ops)
    (hnr : NoReset ops) : InRange (applyOps c ops) :=
  applyOps_inRange_noReset ops c hb hr hs hnr

/-- C1 witness: a concrete press, drag and zoom sequence from the startup
camera keeps the invariant. -/
theorem drag_zoom_sequence_invariants_witness :
    InRange (applyOps initCamera
      [CamOp.press 0 0, CamOp.move 100 0, CamOp.scroll 5]) := by
  refine drag_zoom_sequence_invariants initCamera _
    initCamera_boundsOrdered initCamera_inRange ?_ ?_
  · refine ⟨trivial, ?_, trivial, trivial⟩
    show |((100 : ℝ) - 0) * 0.005| ≤ 2 * Real.pi
    rw [abs_of_nonneg (by norm_num)]
    have := Real.pi_gt_three
    linarith
  · simp [NoReset, isReset]

/-- C1 counterexample: from the startup camera (a valid state), a press at
the origin followed by a single drag of 2000 pixels leaves phi strictly below
negative pi, outside the claimed interval. -/
theorem drag_large_delta_escapes_interval :
    (applyOps initCamera [CamOp.press 0 0, CamOp.move 2000 0]).phi
      < -Real.pi := by
  have hpos := Real.pi_pos
  have hlt := Real.pi_lt_d2
  have h1 : (applyOps initCamera [CamOp.press 0 0, CamOp.move 2000 0]).phi
      = wrapPhi (-9.7) := by
    show (cursor_position_callback (mouse_button_press initCamera 0 0)
      2000 0).phi = wrapPhi (-9.7)
    unfold cursor_position_callback
    norm_num [mouse_button_press, initCamera]
  rw [h1]
  simp only [wrapPhi]
  split_ifs <;> norm_num at * <;> linarith

/-- C2 (amended): after any sequence of controller operations (presses,
releases, drags, zooms, resets) from a state with the source-constant bounds,
the non-strict clamp bounds hold: minRadius ≤ radius ≤ maxRadius,
minTheta ≤ theta ≤ maxTheta and phi ∈ [-pi, pi], provided each drag changes
phi by at most two_pi. -/
theorem controller_mutations_keep_clamped (c : Camera) (ops : List CamOp)
    (hd : DefaultBounds c) (hr : InRange c) (hs : SmallOps c ops) :
    InRange (applyOps c ops) :=
  applyOps_inRange_default ops c hd hr hs

/-- C2 witness: a reset followed by a deep zoom from the startup camera keeps
the non-strict bounds. -/
theorem controller_mutations_keep_clamped_witness :
    InRange (applyOps initCamera [CamOp.resetKey, CamOp.scroll 9]) := by
  refine controller_mutations_keep_clamped initCamera _
    initCamera_defaultBounds initCamera_inRange ?_
  exact ⟨trivial, trivial, trivial⟩

/-- C2 counterexample: a zoom out by 9 from the startup camera drives radius
to exactly minRadius, so the strict inequality minRadius < radius fails. -/
theorem zoom_reaches_min_radius_exactly :
    ¬ ((scroll_callback initCamera 0 9).minRadius
        < (scroll_callback initCamera 0 9).radius) := by
  have h : (scroll_callback initCamera 0 9).radius = 10 := by
    show clamp (initCamera.radius * (1 - 9 * 0.1)) initCamera.minRadius
      initCamera.maxRadius = 10
    rw [show initCamera.radius * (1 - 9 * 0.1) = 5 by norm_num [initCamera]]
    show min (max (5 : ℝ) 10) 800 = 10
    rw [max_eq_right (by norm_num), min_eq_left (by norm_num)]
  have h2 : (scroll_callback initCamera 0 9).minRadius = 10 := rfl
  rw [h, h2]
  norm_num

/-- The R-key branch of processInput (main.cpp lines 172-181): given the
polled key state and the persisted rKeyWasPressed flag, returns whether the
camera reset fired this frame, the updated flag, and the updated camera. -/
def processInputR (rPressed was : Bool) (c : Camera) : Bool × Bool × Camera :=
  if rPressed then
    if !was then (true, true, c.reset) else (false, true, c)
  else (false, false, c)

/-- Run the render loop's R-key handling over a sequence of per-frame key
samples, counting how many times the camera reset fired. -/
def runFrames : List Bool → Bool → Camera → Nat × Camera
  | [], _, c => (0, c)
  | k :: ks, was, c =>
    let r := processInputR k was c
    let rest := runFrames ks r.2.1 r.2.2
    ((if r.1 then 1 else 0) + rest.1, rest.2)

/-- Modelled from the spec: the number of press transitions (frames on which
the key is down but was up on the previous frame) in a sequence of per-frame
key samples. -/
def pressEdges : List Bool → Bool → Nat
  | [], _ => 0
  | k :: ks, prev => (if k && !prev then 1 else 0) + pressEdges ks k

lemma runFrames_count (ks : List Bool) : ∀ (was : Bool) (c : Camera),
    (runFrames ks was c).1 = pressEdges ks was := by
  induction ks with
  | nil => intro was c; rfl
  | cons k ks ih =>
    intro was c
    cases k <;> cases was <;>
      simp [runFrames, processInputR, pressEdges, ih]

lemma pressEdges_replicate_true (n : Nat) :
    pressEdges (List.replicate n true) true = 0 := by
  induction n with
  | zero => rfl
  | succ n ih => simp [List.replicate, pressEdges, ih]

/-- C8: the reset command is edge-triggered: over any sequence of frames the
number of resets fired equals the number of press transitions, and a key held
down for n + 1 consecutive frames fires exactly one reset, not one per
frame. -/
theorem reset_edge_triggered (ks : List Bool) (c : Camera) (n : Nat) :
    (runFrames ks false c).1 = pressEdges ks false ∧
    (runFrames (List.replicate (n + 1) true) false c).1 = 1 := by
  constructor
  · exact runFrames_count ks false c
  · rw [runFrames_count]
    simp [List.replicate, pressEdges, pressEdges_replicate_true]

/-- Modelled from the spec: the terminal classification of a ray (spec
section 3, Outcome). The geodesic integrator itself lives in the
shading-stage file (shaders/fragment.glsl), which is not part of the
available source. -/
inductive Outcome where
  | Escaped
  | Captured
  | HitDisk
  deriving DecidableEq

/-- Modelled from the spec: the integrator's working state per ray (spec
section 3, GeodesicState): position, direction, accumulated affine-parameter
distance; the step count is the integration fuel below. -/
structure GeodesicState where
  pos : Vec3
  dir : Vec3
  affine : ℝ

/-- Modelled from the spec: the per-ray integration loop of spec section 4.3
with its max-step safety valve. The stepping scheme and the per-step
termination checks are parameters, since the shading-stage source is not
included: check returns some terminal outcome when a termination condition
fires and none to keep traveling; when the remaining step budget reaches
zero the ray is forcibly classified Escaped. -/
def integrate (check : GeodesicState → Option Outcome)
    (step : GeodesicState → GeodesicState) : Nat → GeodesicState → Outcome
  | 0, _ => Outcome.Escaped
  | n + 1, s =>
    match check s with
    | some o => o
    | none => integrate check step n (step s)

/-- C9: the integration is total (structural recursion on the step budget, so
no ray loops forever) and when no termination check fires within the budget
the ray is forcibly classified Escaped. -/
theorem max_steps_forces_escape (check : GeodesicState → Option Outcome)
    (step : GeodesicState → GeodesicState) (n : Nat) (s : GeodesicState)
    (h : ∀ k, k < n → check (step^[k] s) = none) :
    integrate check step n s = Outcome.Escaped := by
  induction n generalizing s with
  | zero => rfl
  | succ n ih =>
    have h0 : check s = none := by
      have hh := h 0 (Nat.succ_pos n)
      simpa using hh
    have h1 : ∀ k, k < n → check (step^[k] (step s)) = none := by
      intro k hk
      have hh := h (k + 1) (Nat.succ_lt_succ hk)
      rwa [Function.iterate_succ_apply] at hh
    unfold integrate
    rw [h0]
    exact ih (step s) h1

/-- C9 witness: a concrete ray whose checks never fire is classified Escaped
once the step budget is exhausted. -/
theorem max_steps_forces_escape_witness :
    integrate (fun _ => none) id 5 ⟨⟨0, 0, 300⟩, ⟨0, 0, -1⟩, 0⟩
      = Outcome.Escaped :=
  max_steps_forces_escape (fun _ => none) id 5 ⟨⟨0, 0, 300⟩, ⟨0, 0, -1⟩, 0⟩
    (fun _ _ => rfl)

end

end BlackHole
